import Mathlib

/-!
Verification of the Orion account-administration web application
(`web/utils.py`, `web/views.py`, `web/models.py`) against its
natural-language specification.

JSON objects / Python `dict[str, str]` values are embedded as association
lists `List (String × Key)` with first-match lookup (Python dicts have unique
keys, so first-match lookup agrees with Python semantics) and an
update-in-place-or-append write that mirrors `d[k] = v` and `{**d, k: v}`.

Network effects are embedded by passing the remote service's behaviour as an
explicit oracle argument and returning the list of requests issued alongside
the result.  A Python function that can raise an uncaught exception (for
example `KeyError` from `d["k"]`, which is *not* a `requests.RequestException`
and therefore escapes the `except requests.RequestException` handlers) is
embedded as an `Option`-valued function, `none` meaning an uncaught exception.
-/

namespace Orion

/-- Python dict with string keys and string values (`dict[str, str]`). -/
abbrev Dict := List (String × String)

/-- Python `d.get(k)` / `d[k]`-lookup: first binding of `k`, if any. -/
def alget {β : Type} (d : List (String × β)) (k : String) : Option β :=
  (d.find? (fun p => p.1 == k)).map (fun p => p.2)

/-- Python `d[k] = v` and `{**d, k: v}`: replace the binding of `k` in place
if present (Python dicts keep the key's position), otherwise append. -/
def alset {β : Type} : List (String × β) → String → β → List (String × β)
  | [], k, v => [(k, v)]
  | p :: d, k, v => if p.1 == k then (k, v) :: alset d k v else p :: alset d k v

/-! ## `web/utils.py`: `get_pds_status` -/

/-- Outcome of the `requests.get(f"{PDS_HOSTNAME}/xrpc/_health", ...)` call:
either a `requests.RequestException` was raised, or a response with some
HTTP status code came back. -/
inductive HealthResult : Type
  | exn : HealthResult
  | status : Nat → HealthResult
deriving DecidableEq

/-- Embedding of `get_pds_status` (`web/utils.py`): `True` when the health
endpoint responded with status code 200, `False` on any other status code and
on a raised `requests.RequestException`. -/
def get_pds_status : HealthResult → Bool
  | .exn => false
  | .status code => code == 200

/-! ## `web/utils.py`: `extend_with_account_info`

The remote `com.atproto.admin.getAccountInfos` endpoint is an oracle
`List String → Option (List Dict)`: given the batch of requested DIDs it
either raises a `requests.RequestException` (`none`, covering connection
errors, non-2xx via `raise_for_status`, and JSON decoding errors) or returns
the parsed `infos` array of the response body (`data.get("infos", [])`). -/

/-- Remote behaviour of the bulk account-info endpoint. -/
abbrev InfoOracle := List String → Option (List Dict)

/-- Slicing `dids[i : i + B]` for `i in range(0, len(dids), B)`: the `k`-th
batch is `dids[k*B : k*B + B]` and there are `ceil(len(dids) / B)` batches.
The source fixes `B = BATCH_SIZE = 100`; the batch size is kept as a
parameter.  (`range` with step `0` raises in Python; `chunks 0` is never
used and is the empty list here.) -/
def chunks {α : Type} (B : Nat) (l : List α) : List (List α) :=
  (List.range ((l.length + B - 1) / B)).map (fun k => (l.drop (k * B)).take B)

/-- Embedding of the loop `for info in data.get("infos", []):
account_infos[info["did"]] = info`.  `info["did"]` raises an uncaught
`KeyError` when absent, hence the `Option`. -/
def mergeInfos : List (String × Dict) → List Dict → Option (List (String × Dict))
  | acc, [] => some acc
  | acc, info :: rest =>
    match alget info "did" with
    | none => none
    | some d => mergeInfos (alset acc d info) rest

/-- Embedding of the batch loop of `extend_with_account_info`: one oracle
call per chunk; a `requests.RequestException` (`none` from the oracle) is
caught and logged, contributing no entries; the merged `account_infos`
table is threaded through. -/
def collectInfos (oracle : InfoOracle) :
    List (String × Dict) → List (List String) → Option (List (String × Dict))
  | acc, [] => some acc
  | acc, b :: bs =>
    match oracle b with
    | none => collectInfos oracle acc bs
    | some infos =>
      match mergeInfos acc infos with
      | none => none
      | some acc2 => collectInfos oracle acc2 bs

/-- Embedding of `[repo["did"] for repo in repos]`; `none` when some repo
lacks the `"did"` key (uncaught `KeyError` in Python). -/
def getDids : List Dict → Option (List String)
  | [] => some []
  | r :: rs =>
    match alget r "did", getDids rs with
    | some d, some ds => some (d :: ds)
    | _, _ => none

/-- Embedding of the final per-repo expansion of `extend_with_account_info`:
`{**repo, "handle": ai.get("handle", "unknown"), "email": ai.get("email",
"unknown"), "indexedAt": ai.get("createdAt", "unknown")}` where
`ai = account_infos.get(repo["did"], {})`.  (This map is only applied after
`getDids` succeeded, so `repo["did"]` is present; the `.getD ""` fallback is
never reached.) -/
def extendRepo (table : List (String × Dict)) (repo : Dict) : Dict :=
  let did := (alget repo "did").getD ""
  let ai : Dict := (alget table did).getD []
  alset (alset (alset repo
    "handle" ((alget ai "handle").getD "unknown"))
    "email" ((alget ai "email").getD "unknown"))
    "indexedAt" ((alget ai "createdAt").getD "unknown")

/-- Embedding of `extend_with_account_info` (`web/utils.py`).  Returns the
expanded repo list together with the list of DID batches sent to the remote
service (one oracle call per batch); `none` models an uncaught Python
exception (`KeyError` from a repo or info record lacking `"did"`). -/
def extend_with_account_info (B : Nat) (oracle : InfoOracle) (repos : List Dict) :
    Option (List Dict × List (List String)) :=
  if repos.isEmpty then some (repos, [])
  else
    (getDids repos).bind (fun dids =>
      (collectInfos oracle [] (chunks B dids)).map (fun table =>
        (repos.map (extendRepo table), chunks B dids)))

/-! ## `web/utils.py`: `get_pds_accounts` -/

/-- Outcome of the `com.atproto.sync.listRepos` request as far as
`get_pds_accounts` inspects it: `exn` for a raised
`requests.RequestException` (connection error, non-2xx via
`raise_for_status`, JSON decoding error); `body repos?` for a parsed JSON
body, carrying `some repos` when the body has the `"repos"` key and `none`
when it lacks it (in which case `data["repos"]` raises `KeyError`). -/
inductive ListReposResult : Type
  | exn : ListReposResult
  | body : Option (List Dict) → ListReposResult

/-- Embedding of `get_pds_accounts` (`web/utils.py`).  `none` models an
uncaught Python exception: only `requests.RequestException` is caught, so the
`KeyError` raised by `data["repos"]` on a well-formed JSON body lacking
`"repos"` propagates to the caller. -/
def get_pds_accounts (B : Nat) (oracle : InfoOracle) (r : ListReposResult) :
    Option (List Dict) :=
  match r with
  | .exn => some []
  | .body none => none
  | .body (some repos) =>
    match extend_with_account_info B oracle repos with
    | none => none
    | some (expanded, _) => some expanded

/-! ## `web/models.py`: `AuditLogEvent`, `AuditLog` -/

/-- Closed enumeration of audit event kinds (`web/models.py`). -/
inductive AuditLogEvent : Type
  | LOGIN | LOGOUT | DELETE | TAKEDOWN | UNTAKEDOWN | PASSWORD_CHANGE
deriving DecidableEq

/-- Content of an `AuditLog.objects.create(user=..., event=...,
description=...)` call: the fields the caller supplies (`created_at` is
assigned by the store at insertion). -/
structure AuditRecord : Type where
  user : String
  event : AuditLogEvent
  description : String
deriving DecidableEq

/-- Stored `AuditLog` row: `created_at` is the insertion timestamp
(`auto_now_add=True`), the rest is the caller-supplied content. -/
structure AuditLog : Type where
  created_at : Nat
  user : String
  event : AuditLogEvent
  description : String
deriving DecidableEq

/-- Ordering used by `order_by("-created_at")`: `a` comes no later than `b`
in the displayed sequence when `b.created_at ≤ a.created_at` (descending). -/
def byRecency (a b : AuditLog) : Prop := b.created_at ≤ a.created_at

instance : DecidableRel byRecency :=
  fun a b => inferInstanceAs (Decidable (b.created_at ≤ a.created_at))

instance : IsTotal AuditLog byRecency :=
  ⟨fun a b => Nat.le_total b.created_at a.created_at⟩

instance : IsTrans AuditLog byRecency :=
  ⟨fun _ _ _ hab hbc => Nat.le_trans hbc hab⟩

/-- Strict version of [byRecency]: `a` comes strictly before `b`. -/
def byRecencyStrict (a b : AuditLog) : Prop := b.created_at < a.created_at

instance : IsAntisymm AuditLog byRecencyStrict :=
  ⟨fun _ _ hab hba => absurd hba (Nat.lt_asymm hab)⟩

/-- Embedding of `audit_log_view` (`web/views.py`): the audit store, taken
as the list of rows in insertion order, queried via
`AuditLog.objects.order_by("-created_at")`.  The query emits
`ORDER BY created_at DESC`, which determines the result only up to
reordering of rows with equal keys (the primary key is a random UUID, so no
secondary sort key exists); the query therefore denotes a relation: `out`
is a possible displayed sequence iff it is a permutation of the stored rows
that is non-increasing on `created_at`. -/
def audit_log_view (logs out : List AuditLog) : Prop :=
  out.Perm logs ∧ List.Sorted byRecency out

instance (logs out : List AuditLog) : Decidable (audit_log_view logs out) :=
  inferInstanceAs (Decidable (out.Perm logs ∧ List.Sorted byRecency out))

/-! ## `web/views.py`: `ACCOUNT_ACTIONS` and `account_action_view` -/

/-- Registry mapping each action name to its audit event kind
(`ACCOUNT_ACTIONS` in `web/views.py`).  The executor bound to each name
(`takedown_pds_account`, `untakedown_pds_account`, `delete_pds_account`) is
identified by the action name in the dispatcher's call log below. -/
def ACCOUNT_ACTIONS : List (String × AuditLogEvent) :=
  [("takedown", .TAKEDOWN), ("untakedown", .UNTAKEDOWN), ("delete", .DELETE)]

/-- Python `action.lower()`: lowercase every character.  (`Char.toLower`
maps ASCII letters; action names are ASCII.) -/
def lower (s : String) : String := ⟨s.data.map Char.toLower⟩

/-- HTTP method of the incoming request. -/
inductive Method : Type
  | GET | POST | other : String → Method

/-- External behaviour the dispatcher depends on: `accountInfo` is
`get_pds_account_info` (`none` on any failure, `web/utils.py`), and
`executorResult` gives the boolean returned by the executor bound to an
action name when invoked on a DID. -/
structure ActionEnv : Type where
  accountInfo : String → Option Dict
  executorResult : String → String → Bool

/-- Response produced by `account_action_view`. -/
inductive ActionResponse : Type
  | badRequest
  | confirmationPage : String → String → Option Dict → ActionResponse
  | redirectDashboard
  | notAllowed

/-- Observable outcome of one `account_action_view` request: the response,
the audit records created (in creation order), the executor invocations
`(action, did)`, and the `get_pds_account_info` lookups performed. -/
structure ActionOutcome : Type where
  response : ActionResponse
  newAudit : List AuditRecord
  executorCalls : List (String × String)
  infoCalls : List String

/-- Embedding of `account_action_view` (`web/views.py`).  The action name is
lowercased, looked up in `ACCOUNT_ACTIONS` (unknown → 400 before any method
branch), then: GET renders the confirmation page with the best-effort
account info; POST invokes the bound executor, discards its result, creates
one audit record and redirects to the dashboard; any other method → 405.
The authenticated principal is `user` (`@login_required`). -/
def account_action_view (env : ActionEnv) (user : String) (method : Method)
    (did action : String) : ActionOutcome :=
  let act := lower action
  match alget ACCOUNT_ACTIONS act with
  | none => { response := .badRequest, newAudit := [], executorCalls := [], infoCalls := [] }
  | some ev =>
    match method with
    | .GET =>
      { response := .confirmationPage did act (env.accountInfo did)
        newAudit := []
        executorCalls := []
        infoCalls := [did] }
    | .POST =>
      let _ := env.executorResult act did
      { response := .redirectDashboard
        newAudit := [{ user := user, event := ev,
                       description := "User performed " ++ act ++ " on " ++ did }]
        executorCalls := [(act, did)]
        infoCalls := [] }
    | .other _ =>
      { response := .notAllowed, newAudit := [], executorCalls := [], infoCalls := [] }

/-! ## Observables of `extend_with_account_info` -/

/-- Account list produced by one `extend_with_account_info` run. -/
def enrichedAccounts (B : Nat) (oracle : InfoOracle) (repos : List Dict) :
    Option (List Dict) :=
  (extend_with_account_info B oracle repos).map Prod.fst

/-- DID batches sent to the remote service by one run. -/
def issuedBatches (B : Nat) (oracle : InfoOracle) (repos : List Dict) :
    Option (List (List String)) :=
  (extend_with_account_info B oracle repos).map Prod.snd

/-- The `"did"` field of each record, in order. -/
def didsOf (l : List Dict) : List (Option String) :=
  l.map (fun r => alget r "did")

/-- Merged `account_infos` table built by the batch loop (seeded with the
empty table, defaulting to the empty table if the merge raised). -/
def accountInfoTable (B : Nat) (oracle : InfoOracle) (dids : List String) :
    List (String × Dict) :=
  (collectInfos oracle [] (chunks B dids)).getD []

/-- Remote behaviour used to witness partial batch failure: the batch
`["a"]` fails with a transport error, every other batch is answered with
one info record per requested DID. -/
def partialFailureOracle : InfoOracle := fun bt =>
  if bt = ["a"] then none
  else some (bt.map (fun x => [("did", x), ("handle", "H-" ++ x)]))

/-! ## General lemmas about the association-list primitives -/

theorem alget_nil {β : Type} (k : String) : alget ([] : List (String × β)) k = none := rfl

theorem alget_alset_self {β : Type} (d : List (String × β)) (k : String) (v : β) :
    alget (alset d k v) k = some v := by
  induction d with
  | nil => simp [alset, alget, List.find?]
  | cons p d ih =>
    by_cases h : p.1 == k
    · simp [alset, h, alget, List.find?]
    · simp only [alset, h, Bool.false_eq_true, if_false]
      simpa [alget, List.find?, h] using ih

theorem alget_alset_ne {β : Type} (d : List (String × β)) (k k' : String) (v : β)
    (h : k' ≠ k) : alget (alset d k v) k' = alget d k' := by
  have hkk : (k == k') = false := beq_eq_false_iff_ne.mpr (fun hk => h hk.symm)
  induction d with
  | nil => simp [alset, alget, List.find?, hkk]
  | cons p d ih =>
    by_cases hp : p.1 == k
    · have hp' : (p.1 == k') = false := by
        have hpk : p.1 = k := by simpa [beq_iff_eq] using hp
        rw [hpk]; exact hkk
      simp only [alset, hp, if_true]
      simpa [alget, List.find?, hkk, hp'] using ih
    · simp only [alset, hp, Bool.false_eq_true, if_false]
      by_cases hq : p.1 == k'
      · simp [alget, List.find?, hq]
      · simp only [alget, List.find?, hq]
        simpa [alget] using ih

theorem alget_eq_none_iff {β : Type} (d : List (String × β)) (k : String) :
    alget d k = none ↔ ∀ p ∈ d, p.1 ≠ k := by
  simp [alget, List.find?_eq_none]

/-! ## Lemmas about `chunks` -/

theorem chunks_length {α : Type} (B : Nat) (l : List α) :
    (chunks B l).length = (l.length + B - 1) / B := by
  simp [chunks]

theorem chunks_cons {α : Type} {B : Nat} (hB : 0 < B) (l : List α) (hl : l ≠ []) :
    chunks B l = l.take B :: chunks B (l.drop B) := by
  have hlen : 0 < l.length := List.length_pos.mpr hl
  have hc : (l.length + B - 1) / B = ((l.drop B).length + B - 1) / B + 1 := by
    rw [List.length_drop]
    rcases le_or_lt l.length B with h | h
    · have h1 : l.length + B - 1 = (l.length - 1) + B := by omega
      have h2 : l.length - B = 0 := by omega
      rw [h1, h2, Nat.add_div_right _ hB, Nat.div_eq_of_lt (by omega),
        Nat.div_eq_of_lt (by omega)]
    · have h1 : l.length + B - 1 = (l.length - B + B - 1) + B := by omega
      rw [h1, Nat.add_div_right _ hB]
  unfold chunks
  rw [hc, List.range_succ_eq_map, List.map_cons, List.map_map,
    Nat.zero_mul, List.drop_zero]
  congr 1
  apply List.map_congr_left
  intro k _
  show (l.drop (Nat.succ k * B)).take B = ((l.drop B).drop (k * B)).take B
  rw [List.drop_drop, Nat.succ_mul, Nat.add_comm (k * B) B]

theorem chunks_flatten {α : Type} {B : Nat} (hB : 0 < B) (l : List α) :
    (chunks B l).flatten = l := by
  have h0 : (0 + B - 1) / B = 0 := Nat.div_eq_of_lt (by omega)
  have key : ∀ (n : Nat) (l : List α), l.length ≤ n → (chunks B l).flatten = l := by
    intro n
    induction n with
    | zero =>
      intro l hl
      have : l = [] := List.length_eq_zero.mp (Nat.le_zero.mp hl)
      subst this
      simp [chunks, h0]
    | succ n ih =>
      intro l hl
      rcases eq_or_ne l [] with rfl | hne
      · simp [chunks, h0]
      · rw [chunks_cons hB l hne, List.flatten_cons, ih (l.drop B) ?_,
          List.take_append_drop]
        rw [List.length_drop]
        have : 0 < l.length := List.length_pos.mpr hne
        omega
  exact key l.length l le_rfl

/-! ## Lemmas about `getDids` -/

theorem getDids_length :
    ∀ {repos : List Dict} {dids : List String},
      getDids repos = some dids → dids.length = repos.length := by
  intro repos
  induction repos with
  | nil => intro dids h; cases h; rfl
  | cons r rs ih =>
    intro dids h
    cases hr : alget r "did" with
    | none => rw [getDids, hr] at h; cases h
    | some d =>
      cases hrs : getDids rs with
      | none => rw [getDids, hr, hrs] at h; cases h
      | some ds =>
        rw [getDids, hr, hrs] at h
        cases h
        simpa using ih hrs

theorem getDids_map :
    ∀ {repos : List Dict} {dids : List String},
      getDids repos = some dids →
        repos.map (fun r => alget r "did") = dids.map some := by
  intro repos
  induction repos with
  | nil => intro dids h; cases h; rfl
  | cons r rs ih =>
    intro dids h
    cases hr : alget r "did" with
    | none => rw [getDids, hr] at h; cases h
    | some d =>
      cases hrs : getDids rs with
      | none => rw [getDids, hr, hrs] at h; cases h
      | some ds =>
        rw [getDids, hr, hrs] at h
        cases h
        simp [hr, ih hrs]

/-! ## Lemmas about `extendRepo`, `mergeInfos`, `collectInfos` -/

theorem extendRepo_did (table : List (String × Dict)) (r : Dict) :
    alget (extendRepo table r) "did" = alget r "did" := by
  simp only [extendRepo]
  rw [alget_alset_ne _ _ _ _ (by decide), alget_alset_ne _ _ _ _ (by decide),
    alget_alset_ne _ _ _ _ (by decide)]

theorem extendRepo_eq (table : List (String × Dict)) (r : Dict) (d : String)
    (hd : alget r "did" = some d) :
    extendRepo table r =
      alset (alset (alset r
        "handle" ((alget ((alget table d).getD []) "handle").getD "unknown"))
        "email" ((alget ((alget table d).getD []) "email").getD "unknown"))
        "indexedAt" ((alget ((alget table d).getD []) "createdAt").getD "unknown") := by
  simp [extendRepo, hd]

theorem collectInfos_cons_none {oracle : InfoOracle} {b : List String}
    {acc : List (String × Dict)} {bs : List (List String)}
    (hb : oracle b = none) :
    collectInfos oracle acc (b :: bs) = collectInfos oracle acc bs := by
  rw [collectInfos, hb]

theorem collectInfos_cons_some {oracle : InfoOracle} {b : List String}
    {acc : List (String × Dict)} {bs : List (List String)} {infos : List Dict}
    (hb : oracle b = some infos) :
    collectInfos oracle acc (b :: bs)
      = match mergeInfos acc infos with
        | none => none
        | some acc2 => collectInfos oracle acc2 bs := by
  rw [collectInfos, hb]

theorem mergeInfos_isSome (acc : List (String × Dict)) (infos : List Dict)
    (h : ∀ I ∈ infos, (alget I "did").isSome) :
    (mergeInfos acc infos).isSome := by
  induction infos generalizing acc with
  | nil => simp [mergeInfos]
  | cons I rest ih =>
    obtain ⟨d, hd⟩ := Option.isSome_iff_exists.mp (h I (List.mem_cons_self ..))
    rw [mergeInfos, hd]
    exact ih _ (fun J hJ => h J (List.mem_cons_of_mem _ hJ))

theorem collectInfos_isSome (oracle : InfoOracle) (bs : List (List String))
    (acc : List (String × Dict))
    (h : ∀ b ∈ bs, ∀ infos, oracle b = some infos →
      ∀ I ∈ infos, (alget I "did").isSome) :
    (collectInfos oracle acc bs).isSome := by
  induction bs generalizing acc with
  | nil => simp [collectInfos]
  | cons b rest ih =>
    cases hb : oracle b with
    | none =>
      rw [collectInfos_cons_none hb]
      exact ih _ (fun b' hb' => h b' (List.mem_cons_of_mem _ hb'))
    | some infos =>
      have hm := mergeInfos_isSome acc infos (h b (List.mem_cons_self ..) infos hb)
      obtain ⟨acc2, hacc2⟩ := Option.isSome_iff_exists.mp hm
      rw [collectInfos_cons_some hb, hacc2]
      exact ih acc2 (fun b' hb' => h b' (List.mem_cons_of_mem _ hb'))

theorem extend_eq {B : Nat} {oracle : InfoOracle} {repos : List Dict}
    {dids : List String} {table : List (String × Dict)}
    (hne : repos ≠ [])
    (hdids : getDids repos = some dids)
    (htab : collectInfos oracle [] (chunks B dids) = some table) :
    extend_with_account_info B oracle repos
      = some (repos.map (extendRepo table), chunks B dids) := by
  cases repos with
  | nil => exact absurd rfl hne
  | cons r rs =>
    rw [extend_with_account_info, hdids, Option.some_bind, htab, Option.map_some']
    rfl

theorem mergeInfos_no_mention {d : String} :
    ∀ (infos : List Dict) (acc acc' : List (String × Dict)),
      mergeInfos acc infos = some acc' →
      (∀ I ∈ infos, alget I "did" ≠ some d) →
      alget acc' d = alget acc d := by
  intro infos
  induction infos with
  | nil => intro acc acc' h _; cases h; rfl
  | cons I rest ih =>
    intro acc acc' h hno
    cases hdI : alget I "did" with
    | none => rw [mergeInfos, hdI] at h; cases h
    | some d' =>
      rw [mergeInfos, hdI] at h
      have hne : d ≠ d' := fun hq => hno I (List.mem_cons_self ..) (by rw [hdI, hq])
      rw [ih (alset acc d' I) acc' h
        (fun J hJ => hno J (List.mem_cons_of_mem _ hJ)), alget_alset_ne _ _ _ _ hne]

theorem mergeInfos_unique_mention {d : String} {I : Dict} :
    ∀ (infos : List Dict) (acc acc' : List (String × Dict)),
      mergeInfos acc infos = some acc' →
      I ∈ infos → alget I "did" = some d →
      (∀ J ∈ infos, alget J "did" = some d → J = I) →
      alget acc' d = some I := by
  intro infos
  induction infos with
  | nil => intro acc acc' _ hI; cases hI
  | cons J rest ih =>
    intro acc acc' h hI hdI huni
    cases hdJ : alget J "did" with
    | none => rw [mergeInfos, hdJ] at h; cases h
    | some dJ =>
      rw [mergeInfos, hdJ] at h
      by_cases hdd : dJ = d
      · subst hdd
        have hJI : J = I := huni J (List.mem_cons_self ..) hdJ
        subst hJI
        by_cases hrest : ∀ K ∈ rest, alget K "did" ≠ some dJ
        · rw [mergeInfos_no_mention rest _ acc' h hrest, alget_alset_self]
        · push_neg at hrest
          obtain ⟨K, hK, hdK⟩ := hrest
          have hKJ : K = J := huni K (List.mem_cons_of_mem _ hK) hdK
          subst hKJ
          exact ih _ acc' h hK hdI
            (fun L hL hdL => huni L (List.mem_cons_of_mem _ hL) hdL)
      · have hIJ : I ≠ J := by
          intro hq
          subst hq
          rw [hdI] at hdJ
          injection hdJ with h'
          exact hdd h'.symm
        have hIrest : I ∈ rest := by
          rcases List.mem_cons.mp hI with rfl | hr
          · exact absurd rfl hIJ
          · exact hr
        exact ih _ acc' h hIrest hdI
          (fun L hL hdL => huni L (List.mem_cons_of_mem _ hL) hdL)

theorem collectInfos_no_mention {oracle : InfoOracle} {d : String} :
    ∀ (bs : List (List String)) (acc acc' : List (String × Dict)),
      collectInfos oracle acc bs = some acc' →
      (∀ b ∈ bs, ∀ infos, oracle b = some infos →
        ∀ I ∈ infos, alget I "did" ≠ some d) →
      alget acc' d = alget acc d := by
  intro bs
  induction bs with
  | nil => intro acc acc' h _; cases h; rfl
  | cons b rest ih =>
    intro acc acc' h hno
    cases hb : oracle b with
    | none =>
      rw [collectInfos_cons_none hb] at h
      exact ih acc acc' h (fun b' hb' => hno b' (List.mem_cons_of_mem _ hb'))
    | some infos =>
      rw [collectInfos_cons_some hb] at h
      cases hm : mergeInfos acc infos with
      | none => rw [hm] at h; cases h
      | some acc2 =>
        rw [hm] at h
        have hstep : alget acc2 d = alget acc d :=
          mergeInfos_no_mention infos acc acc2 hm
            (hno b (List.mem_cons_self ..) infos hb)
        rw [ih acc2 acc' h (fun b' hb' => hno b' (List.mem_cons_of_mem _ hb')), hstep]

theorem collectInfos_mention {oracle : InfoOracle} {d : String} {I : Dict}
    {b : List String} {infos : List Dict}
    (hb : oracle b = some infos) (hI : I ∈ infos) (hdI : alget I "did" = some d)
    (huni : ∀ J ∈ infos, alget J "did" = some d → J = I) :
    ∀ (bs1 : List (List String)) (bs2 : List (List String))
      (acc acc' : List (String × Dict)),
      collectInfos oracle acc (bs1 ++ b :: bs2) = some acc' →
      (∀ b' ∈ bs1, ∀ infos', oracle b' = some infos' →
        ∀ J ∈ infos', alget J "did" ≠ some d) →
      (∀ b' ∈ bs2, ∀ infos', oracle b' = some infos' →
        ∀ J ∈ infos', alget J "did" ≠ some d) →
      alget acc' d = some I := by
  intro bs1
  induction bs1 with
  | nil =>
    intro bs2 acc acc' h _ hno2
    rw [List.nil_append, collectInfos_cons_some hb] at h
    cases hm : mergeInfos acc infos with
    | none => rw [hm] at h; cases h
    | some acc2 =>
      rw [hm] at h
      have h1 : alget acc2 d = some I :=
        mergeInfos_unique_mention infos acc acc2 hm hI hdI huni
      rw [collectInfos_no_mention bs2 acc2 acc' h hno2, h1]
  | cons b0 rest ih =>
    intro bs2 acc acc' h hno1 hno2
    rw [List.cons_append] at h
    cases hb0 : oracle b0 with
    | none =>
      rw [collectInfos_cons_none hb0] at h
      exact ih bs2 acc acc' h
        (fun b' hb' => hno1 b' (List.mem_cons_of_mem _ hb')) hno2
    | some infos0 =>
      rw [collectInfos_cons_some hb0] at h
      cases hm : mergeInfos acc infos0 with
      | none => rw [hm] at h; cases h
      | some acc2 =>
        rw [hm] at h
        exact ih bs2 acc2 acc' h
          (fun b' hb' => hno1 b' (List.mem_cons_of_mem _ hb')) hno2

/-! ## Claim theorems: remote-client error handling -/

/-- C7: `get_pds_status` returns `True` if and only if the remote health
endpoint responds with status exactly 200; any other status value, or a
raised transport error, yields `False`. -/
theorem get_pds_status_true_iff_200 (r : HealthResult) :
    get_pds_status r = true ↔ r = .status 200 := by
  cases r with
  | exn => simp [get_pds_status]
  | status c => simp [get_pds_status]

/-- C5 counterexample: on a well-formed 2xx response whose JSON body lacks
the `repos` key (`.body none`), `get_pds_accounts` does not return the empty
list — `data["repos"]` raises a `KeyError`, which is not a
`requests.RequestException` and propagates to the caller (`none` in the
embedding). -/
theorem get_pds_accounts_malformed_body_raises :
    get_pds_accounts 100 (fun _ => some []) (.body none) = none := rfl

/-- C5 amended: `get_pds_accounts` returns the empty list on any raised
`requests.RequestException` (transport error, non-2xx status, JSON decoding
failure); but a parseable response body lacking the `repos[]` key raises an
uncaught `KeyError` instead of yielding the empty list. -/
theorem get_pds_accounts_transport_error_empty (B : Nat) (oracle : InfoOracle) :
    get_pds_accounts B oracle .exn = some [] := rfl

/-! ## Claim theorems: account-info aggregation -/

/-- C2: for every batch size `B > 0` and base account list whose records
carry identifiers, `extend_with_account_info` issues exactly
`ceil(N/B)` bulk-info calls whose concatenation is the original identifier
list in order (so each batch preserves the original order), and returns
exactly `N` annotated records whose identifiers are the input identifiers in
the same order; for the empty list it returns the empty list and issues no
remote call.  (`hwf` says the remote's responses carry a `did` per info —
without it Python raises a `KeyError`.) -/
theorem extend_with_account_info_batching
    (B : Nat) (oracle : InfoOracle) (repos : List Dict) (dids : List String)
    (hB : 0 < B)
    (hdids : getDids repos = some dids)
    (hwf : ∀ b infos, oracle b = some infos → ∀ I ∈ infos, (alget I "did").isSome) :
    issuedBatches B oracle repos = some (chunks B dids)
    ∧ (chunks B dids).length = (repos.length + B - 1) / B
    ∧ (chunks B dids).flatten = dids
    ∧ Option.map List.length (enrichedAccounts B oracle repos) = some repos.length
    ∧ Option.map didsOf (enrichedAccounts B oracle repos) = some (dids.map some)
    ∧ extend_with_account_info B oracle [] = some ([], []) := by
  have hlen : dids.length = repos.length := getDids_length hdids
  rcases eq_or_ne repos [] with rfl | hne
  · cases hdids
    have h1 : (B - 1) / B = 0 := Nat.div_eq_of_lt (by omega)
    have hch : chunks B ([] : List String) = [] := by simp [chunks, h1]
    exact ⟨by rw [hch]; rfl, by rw [hch]; simp [h1],
      by rw [hch]; rfl, rfl, rfl, rfl⟩
  · have hcoll := collectInfos_isSome oracle (chunks B dids) []
      (fun b _ infos hi => hwf b infos hi)
    obtain ⟨table, htab⟩ := Option.isSome_iff_exists.mp hcoll
    have hext := extend_eq hne hdids htab
    refine ⟨?_, ?_, chunks_flatten hB dids, ?_, ?_, rfl⟩
    · rw [issuedBatches, hext, Option.map_some']
    · rw [chunks_length, hlen]
    · rw [enrichedAccounts, hext, Option.map_some', Option.map_some',
        List.length_map]
    · rw [enrichedAccounts, hext, Option.map_some', Option.map_some']
      rw [didsOf, List.map_map]
      have : repos.map ((fun r => alget r "did") ∘ extendRepo table)
          = repos.map (fun r => alget r "did") :=
        List.map_congr_left (fun r _ => extendRepo_did table r)
      rw [this, getDids_map hdids]

/-- C2 witness: three accounts with batch size 2 produce the two batches
`[["a","b"],["c"]]` (ceil(3/2) = 2 calls) and three annotated records in
input order; the empty list yields no call. -/
theorem extend_with_account_info_batching_witness :
    (0 < 2)
    ∧ (getDids [[("did", "a")], [("did", "b")], [("did", "c")]]
        = some ["a", "b", "c"])
    ∧ (issuedBatches 2 (fun _ => some [])
          [[("did", "a")], [("did", "b")], [("did", "c")]]
        = some [["a", "b"], ["c"]]
      ∧ [["a", "b"], ["c"]].length = (3 + 2 - 1) / 2
      ∧ [["a", "b"], ["c"]].flatten = ["a", "b", "c"]
      ∧ Option.map List.length (enrichedAccounts 2 (fun _ => some [])
          [[("did", "a")], [("did", "b")], [("did", "c")]]) = some 3
      ∧ Option.map didsOf (enrichedAccounts 2 (fun _ => some [])
          [[("did", "a")], [("did", "b")], [("did", "c")]])
          = some [some "a", some "b", some "c"]
      ∧ extend_with_account_info 2 (fun _ => some []) [] = some ([], [])) :=
  ⟨by decide, by decide,
   extend_with_account_info_batching 2 (fun _ => some [])
     [[("did", "a")], [("did", "b")], [("did", "c")]] ["a", "b", "c"]
     (by decide) (by decide)
     (by intro b infos h I hI; injection h with h; subst h; cases hI)⟩

/-- C3: under partial batch failure, enrichment still completes: with
distinct identifiers and a remote that answers each batch only about the
requested DIDs, a record whose batch `b` failed (`oracle b = none`) is
annotated with the three `"unknown"` sentinels, while a record in a
successful batch whose identifier was returned (by the unique info `I`) is
annotated from `I` — the whole run never aborts and returns one output per
input. -/
theorem extend_with_account_info_partial_failure
    (B : Nat) (oracle : InfoOracle) (repos : List Dict) (dids : List String)
    (b : List String) (r : Dict) (d : String)
    (hB : 0 < B)
    (hdids : getDids repos = some dids)
    (hnd : dids.Nodup)
    (hwfdid : ∀ b' infos, oracle b' = some infos →
      ∀ I ∈ infos, (alget I "did").isSome)
    (hwfin : ∀ b' infos, oracle b' = some infos →
      ∀ I ∈ infos, ∀ d', alget I "did" = some d' → d' ∈ b')
    (hmem : r ∈ repos) (hd : alget r "did" = some d)
    (hb : b ∈ chunks B dids) (hdb : d ∈ b) :
    extend_with_account_info B oracle repos
        = some (repos.map (extendRepo (accountInfoTable B oracle dids)),
            chunks B dids)
    ∧ (oracle b = none →
        extendRepo (accountInfoTable B oracle dids) r
          = alset (alset (alset r "handle" "unknown") "email" "unknown")
              "indexedAt" "unknown")
    ∧ (∀ infos I, oracle b = some infos → I ∈ infos →
        alget I "did" = some d →
        (∀ J ∈ infos, alget J "did" = some d → J = I) →
        extendRepo (accountInfoTable B oracle dids) r
          = alset (alset (alset r
              "handle" ((alget I "handle").getD "unknown"))
              "email" ((alget I "email").getD "unknown"))
              "indexedAt" ((alget I "createdAt").getD "unknown")) := by
  have hne : repos ≠ [] := by rintro rfl; cases hmem
  obtain ⟨table, htab⟩ := Option.isSome_iff_exists.mp
    (collectInfos_isSome oracle (chunks B dids) []
      (fun b' _ infos hi => hwfdid b' infos hi))
  have htabeq : accountInfoTable B oracle dids = table := by
    rw [accountInfoTable, htab]; rfl
  have hflat : (chunks B dids).flatten = dids := chunks_flatten hB dids
  have hndfl : ((chunks B dids).flatten).Nodup := by rw [hflat]; exact hnd
  have hpairwise : (chunks B dids).Pairwise List.Disjoint :=
    (List.nodup_flatten.mp hndfl).2
  obtain ⟨s, t, hst⟩ := List.append_of_mem hb
  have hpairwise2 := hst ▸ hpairwise
  rw [List.pairwise_append] at hpairwise2
  obtain ⟨_, hbt, hcross⟩ := hpairwise2
  have hdisj_s : ∀ x ∈ s, d ∉ x :=
    fun x hx hdx => (hcross x hx b (List.mem_cons_self ..)) hdx hdb
  have hdisj_t : ∀ y ∈ t, d ∉ y := by
    intro y hy hdy
    exact ((List.pairwise_cons.mp hbt).1 y hy) hdb hdy
  have hnos : ∀ b' ∈ s, ∀ infos', oracle b' = some infos' →
      ∀ J ∈ infos', alget J "did" ≠ some d := by
    intro b' hb' infos' hor J hJ hdJ
    exact hdisj_s b' hb' (hwfin b' infos' hor J hJ d hdJ)
  have hnot : ∀ b' ∈ t, ∀ infos', oracle b' = some infos' →
      ∀ J ∈ infos', alget J "did" ≠ some d := by
    intro b' hb' infos' hor J hJ hdJ
    exact hdisj_t b' hb' (hwfin b' infos' hor J hJ d hdJ)
  refine ⟨by rw [htabeq]; exact extend_eq hne hdids htab, ?_, ?_⟩
  · intro hfail
    have hnoall : ∀ b' ∈ chunks B dids, ∀ infos', oracle b' = some infos' →
        ∀ J ∈ infos', alget J "did" ≠ some d := by
      intro b' hb' infos' hor J hJ hdJ
      rw [hst] at hb'
      rcases List.mem_append.mp hb' with hb's | hb'bt
      · exact hnos b' hb's infos' hor J hJ hdJ
      · rcases List.mem_cons.mp hb'bt with rfl | hb't
        · rw [hfail] at hor; cases hor
        · exact hnot b' hb't infos' hor J hJ hdJ
    have habs : alget table d = none :=
      collectInfos_no_mention (chunks B dids) [] table htab hnoall
    rw [htabeq, extendRepo_eq table r d hd, habs]
    rfl
  · intro infos I hor hI hdI huni
    have hcoll : collectInfos oracle [] (s ++ b :: t) = some table := by
      rw [← hst]; exact htab
    have hsome : alget table d = some I :=
      collectInfos_mention hor hI hdI huni s t [] table hcoll hnos hnot
    rw [htabeq, extendRepo_eq table r d hd, hsome]
    rfl

/-- C3 witness: two accounts with batch size 1; the batch for `"a"` fails,
the batch for `"b"` succeeds.  `"a"` gets the three sentinels, `"b"` is
annotated from the returned info, and the run returns both records. -/
theorem extend_with_account_info_partial_failure_witness :
    (getDids [[("did", "a")], [("did", "b")]] = some ["a", "b"])
    ∧ (["a", "b"] : List String).Nodup
    ∧ (["a"] ∈ chunks 1 ["a", "b"] ∧ ("a" : String) ∈ (["a"] : List String))
    ∧ (["b"] ∈ chunks 1 ["a", "b"] ∧ ("b" : String) ∈ (["b"] : List String))
    ∧ partialFailureOracle ["a"] = none
    ∧ partialFailureOracle ["b"] = some [[("did", "b"), ("handle", "H-b")]]
    ∧ extendRepo (accountInfoTable 1 partialFailureOracle ["a", "b"])
        [("did", "a")]
        = [("did", "a"), ("handle", "unknown"), ("email", "unknown"),
           ("indexedAt", "unknown")]
    ∧ extendRepo (accountInfoTable 1 partialFailureOracle ["a", "b"])
        [("did", "b")]
        = [("did", "b"), ("handle", "H-b"), ("email", "unknown"),
           ("indexedAt", "unknown")]
    ∧ extend_with_account_info 1 partialFailureOracle
        [[("did", "a")], [("did", "b")]]
        = some ([[("did", "a"), ("handle", "unknown"), ("email", "unknown"),
                  ("indexedAt", "unknown")],
                 [("did", "b"), ("handle", "H-b"), ("email", "unknown"),
                  ("indexedAt", "unknown")]],
                [["a"], ["b"]]) := by
  have hwfdid : ∀ b' infos, partialFailureOracle b' = some infos →
      ∀ I ∈ infos, (alget I "did").isSome := by
    intro b' infos h I hI
    rw [partialFailureOracle] at h
    by_cases hba : b' = ["a"]
    · rw [if_pos hba] at h; cases h
    · rw [if_neg hba] at h
      injection h with h
      subst h
      obtain ⟨x, _, rfl⟩ := List.mem_map.mp hI
      simp [alget, List.find?]
  have hwfin : ∀ b' infos, partialFailureOracle b' = some infos →
      ∀ I ∈ infos, ∀ d', alget I "did" = some d' → d' ∈ b' := by
    intro b' infos h I hI d' hd'
    rw [partialFailureOracle] at h
    by_cases hba : b' = ["a"]
    · rw [if_pos hba] at h; cases h
    · rw [if_neg hba] at h
      injection h with h
      subst h
      obtain ⟨x, hx, rfl⟩ := List.mem_map.mp hI
      have : some x = some d' := by simpa [alget, List.find?] using hd'
      injection this with this
      subst this
      exact hx
  have hfailed := extend_with_account_info_partial_failure 1
    partialFailureOracle [[("did", "a")], [("did", "b")]] ["a", "b"]
    ["a"] [("did", "a")] "a" (by decide) (by decide) (by decide)
    hwfdid hwfin (by decide) (by decide) (by decide) (by decide)
  have hok := extend_with_account_info_partial_failure 1
    partialFailureOracle [[("did", "a")], [("did", "b")]] ["a", "b"]
    ["b"] [("did", "b")] "b" (by decide) (by decide) (by decide)
    hwfdid hwfin (by decide) (by decide) (by decide) (by decide)
  refine ⟨by decide, by decide, ⟨by decide, by decide⟩, ⟨by decide, by decide⟩,
    by decide, by decide, ?_, ?_, ?_⟩
  · exact hfailed.2.1 (by decide)
  · exact hok.2.2 [[("did", "b"), ("handle", "H-b")]]
      [("did", "b"), ("handle", "H-b")] (by decide) (by decide) (by decide)
      (by decide)
  · exact hfailed.1

/-- C4: a base-list record whose identifier is absent from the merged
bulk-info lookup table is annotated with `handle`, `email` and `indexedAt`
all `"unknown"`, and every other field of the record is passed through
unchanged (the output record is the input record with exactly those three
fields set). -/
theorem extend_with_account_info_missing_did_sentinels
    (B : Nat) (oracle : InfoOracle) (repos : List Dict) (dids : List String)
    (table : List (String × Dict)) (r : Dict) (d : String)
    (hdids : getDids repos = some dids)
    (htab : collectInfos oracle [] (chunks B dids) = some table)
    (hmem : r ∈ repos) (hd : alget r "did" = some d)
    (habs : alget table d = none) :
    extend_with_account_info B oracle repos
        = some (repos.map (extendRepo table), chunks B dids)
    ∧ extendRepo table r
        = alset (alset (alset r "handle" "unknown") "email" "unknown")
            "indexedAt" "unknown"
    ∧ alget (extendRepo table r) "handle" = some "unknown"
    ∧ alget (extendRepo table r) "email" = some "unknown"
    ∧ alget (extendRepo table r) "indexedAt" = some "unknown" := by
  have hne : repos ≠ [] := by rintro rfl; cases hmem
  have h2 : extendRepo table r
      = alset (alset (alset r "handle" "unknown") "email" "unknown")
          "indexedAt" "unknown" := by
    rw [extendRepo_eq table r d hd, habs]
    rfl
  refine ⟨extend_eq hne hdids htab, h2, ?_, ?_, ?_⟩ <;> rw [h2]
  · rw [alget_alset_ne _ _ _ _ (by decide), alget_alset_ne _ _ _ _ (by decide),
      alget_alset_self]
  · rw [alget_alset_ne _ _ _ _ (by decide), alget_alset_self]
  · rw [alget_alset_self]

/-- C4 witness: the remote returns no info for `"a"`, so the record keeps
its extra field `("extra", "kept")` unchanged and gains the three
`"unknown"` sentinels. -/
theorem extend_with_account_info_missing_did_sentinels_witness :
    (getDids [[("did", "a"), ("extra", "kept")]] = some ["a"])
    ∧ (collectInfos (fun _ => some []) [] (chunks 100 ["a"]) = some [])
    ∧ (alget ([] : List (String × Dict)) "a" = none)
    ∧ (extend_with_account_info 100 (fun _ => some [])
          [[("did", "a"), ("extra", "kept")]]
        = some ([[("did", "a"), ("extra", "kept"), ("handle", "unknown"),
                  ("email", "unknown"), ("indexedAt", "unknown")]], [["a"]])
      ∧ extendRepo [] [("did", "a"), ("extra", "kept")]
          = [("did", "a"), ("extra", "kept"), ("handle", "unknown"),
             ("email", "unknown"), ("indexedAt", "unknown")]
      ∧ alget (extendRepo [] [("did", "a"), ("extra", "kept")]) "handle"
          = some "unknown"
      ∧ alget (extendRepo [] [("did", "a"), ("extra", "kept")]) "email"
          = some "unknown"
      ∧ alget (extendRepo [] [("did", "a"), ("extra", "kept")]) "indexedAt"
          = some "unknown") :=
  ⟨by decide, by decide, by decide,
   extend_with_account_info_missing_did_sentinels 100 (fun _ => some [])
     [[("did", "a"), ("extra", "kept")]] ["a"] [] [("did", "a"), ("extra", "kept")]
     "a" (by decide) (by decide) (by decide) (by decide) (by decide)⟩

/-- C10: when the merged lookup table has an entry `info` for a record's
identifier, the output record's `indexedAt` field is
`info.get("createdAt", "unknown")` — taken from the entry's `createdAt`
key, not from any `indexedAt` key — and in particular it is `"unknown"`
when the entry lacks `createdAt` even though the entry was found. -/
theorem extend_with_account_info_indexedAt_from_createdAt
    (B : Nat) (oracle : InfoOracle) (repos : List Dict) (dids : List String)
    (table : List (String × Dict)) (r : Dict) (d : String) (info : Dict)
    (hdids : getDids repos = some dids)
    (htab : collectInfos oracle [] (chunks B dids) = some table)
    (hmem : r ∈ repos) (hd : alget r "did" = some d)
    (hfound : alget table d = some info) :
    extend_with_account_info B oracle repos
        = some (repos.map (extendRepo table), chunks B dids)
    ∧ alget (extendRepo table r) "indexedAt"
        = some ((alget info "createdAt").getD "unknown")
    ∧ (alget info "createdAt" = none →
        alget (extendRepo table r) "indexedAt" = some "unknown") := by
  have hne : repos ≠ [] := by rintro rfl; cases hmem
  have h2 : alget (extendRepo table r) "indexedAt"
      = some ((alget info "createdAt").getD "unknown") := by
    rw [extendRepo_eq table r d hd, alget_alset_self, hfound]
    rfl
  exact ⟨extend_eq hne hdids htab, h2, fun hnone => by rw [h2, hnone]; rfl⟩

/-- C10 witness: the remote's info for `"a"` has `indexedAt = "IGNORED"`
and no `createdAt`; the output record's `indexedAt` is `"unknown"`, showing
the value is read from `createdAt` and the info's own `indexedAt` key is
ignored. -/
theorem extend_with_account_info_indexedAt_from_createdAt_witness :
    (getDids [[("did", "a")]] = some ["a"])
    ∧ (collectInfos (fun _ => some [[("did", "a"), ("indexedAt", "IGNORED")]])
          [] (chunks 100 ["a"])
        = some [("a", [("did", "a"), ("indexedAt", "IGNORED")])])
    ∧ (alget [("a", [("did", "a"), ("indexedAt", "IGNORED")])] "a"
        = some [("did", "a"), ("indexedAt", "IGNORED")])
    ∧ (alget [("did", "a"), ("indexedAt", "IGNORED")] "createdAt" = none)
    ∧ alget (extendRepo [("a", [("did", "a"), ("indexedAt", "IGNORED")])]
          [("did", "a")]) "indexedAt" = some "unknown" :=
  ⟨by decide, by decide, by decide, by decide,
   (extend_with_account_info_indexedAt_from_createdAt 100
     (fun _ => some [[("did", "a"), ("indexedAt", "IGNORED")]])
     [[("did", "a")]] ["a"] [("a", [("did", "a"), ("indexedAt", "IGNORED")])]
     [("did", "a")] "a" [("did", "a"), ("indexedAt", "IGNORED")]
     (by decide) (by decide) (by decide) (by decide) (by decide)).2.2
     (by decide)⟩

/-! ## Claim theorems: action dispatch -/

/-- C1: for every authenticated POST to the account-action endpoint with an
action name in the registry and any identifier, the executor bound to the
action is invoked, exactly one audit record is created whose event kind is
the registry's kind for that action, whose description is
`"User performed {action} on {id}"` and whose actor is the authenticated
principal, and the response is a redirect to the dashboard — for every
behaviour `env` of the executor (success or failure alike). -/
theorem account_action_post_creates_single_audit
    (env : ActionEnv) (user did a : String) (ev : AuditLogEvent)
    (h : (a, ev) ∈ ACCOUNT_ACTIONS) :
    account_action_view env user .POST did a =
      { response := .redirectDashboard
        newAudit := [{ user := user, event := ev,
                       description := "User performed " ++ a ++ " on " ++ did }]
        executorCalls := [(a, did)]
        infoCalls := [] } := by
  simp only [ACCOUNT_ACTIONS, List.mem_cons, List.not_mem_nil, or_false,
    Prod.mk.injEq] at h
  rcases h with ⟨rfl, rfl⟩ | ⟨rfl, rfl⟩ | ⟨rfl, rfl⟩ <;> rfl

/-- C1 witness: a concrete takedown POST, with an executor that reports
failure, still creates exactly the one audit record and redirects. -/
theorem account_action_post_creates_single_audit_witness :
    (("takedown", AuditLogEvent.TAKEDOWN) ∈ ACCOUNT_ACTIONS) ∧
    account_action_view ⟨fun _ => none, fun _ _ => false⟩ "alice" .POST
        "did:plc:1" "takedown" =
      { response := .redirectDashboard
        newAudit := [{ user := "alice", event := .TAKEDOWN,
                       description := "User performed takedown on did:plc:1" }]
        executorCalls := [("takedown", "did:plc:1")]
        infoCalls := [] } :=
  ⟨by decide,
   account_action_post_creates_single_audit ⟨fun _ => none, fun _ _ => false⟩
     "alice" "did:plc:1" "takedown" .TAKEDOWN (by decide)⟩

/-- C6: for every request method (in particular GET and POST), if the action
name — lowercased — is not a key of the registry, the dispatcher answers 400
Bad Request, invokes no executor, performs no account-info lookup and
creates no audit record. -/
theorem account_action_unknown_action_bad_request
    (env : ActionEnv) (user did a : String) (m : Method)
    (h : ∀ p ∈ ACCOUNT_ACTIONS, p.1 ≠ lower a) :
    account_action_view env user m did a =
      { response := .badRequest, newAudit := [], executorCalls := [], infoCalls := [] } := by
  have hl : alget ACCOUNT_ACTIONS (lower a) = none := (alget_eq_none_iff _ _).mpr h
  simp [account_action_view, hl]

/-- C6 witness: the unknown action name "Suspend" (checked
case-insensitively) yields 400 with no side effects, for GET and for POST. -/
theorem account_action_unknown_action_bad_request_witness :
    (∀ p ∈ ACCOUNT_ACTIONS, p.1 ≠ lower "Suspend") ∧
    account_action_view ⟨fun _ => none, fun _ _ => true⟩ "alice" .GET
        "did:plc:1" "Suspend" =
      { response := .badRequest, newAudit := [], executorCalls := [], infoCalls := [] } ∧
    account_action_view ⟨fun _ => none, fun _ _ => true⟩ "alice" .POST
        "did:plc:1" "Suspend" =
      { response := .badRequest, newAudit := [], executorCalls := [], infoCalls := [] } :=
  ⟨by decide,
   account_action_unknown_action_bad_request ⟨fun _ => none, fun _ _ => true⟩
     "alice" "did:plc:1" "Suspend" .GET (by decide),
   account_action_unknown_action_bad_request ⟨fun _ => none, fun _ _ => true⟩
     "alice" "did:plc:1" "Suspend" .POST (by decide)⟩

/-- C9: for every authenticated GET with a valid action name, the dispatcher
performs exactly one best-effort single-account lookup and renders the
confirmation view carrying the lookup's result (possibly `none` — the view
is still rendered, a `none` result is not fatal), while creating no audit
record and invoking no executor. -/
theorem account_action_get_no_side_effects
    (env : ActionEnv) (user did a : String) (ev : AuditLogEvent)
    (h : alget ACCOUNT_ACTIONS (lower a) = some ev) :
    account_action_view env user .GET did a =
      { response := .confirmationPage did (lower a) (env.accountInfo did)
        newAudit := []
        executorCalls := []
        infoCalls := [did] } := by
  simp [account_action_view, h]

/-- C9 witness: a concrete GET for takedown against a remote whose
account-info lookup fails (`none`) renders the confirmation page with
`none`, with no audit record and no executor call. -/
theorem account_action_get_no_side_effects_witness :
    (alget ACCOUNT_ACTIONS (lower "takedown") = some .TAKEDOWN) ∧
    account_action_view ⟨fun _ => none, fun _ _ => true⟩ "alice" .GET
        "did:plc:1" "takedown" =
      { response := .confirmationPage "did:plc:1" "takedown" none
        newAudit := []
        executorCalls := []
        infoCalls := ["did:plc:1"] } :=
  ⟨by decide,
   account_action_get_no_side_effects ⟨fun _ => none, fun _ _ => true⟩
     "alice" "did:plc:1" "takedown" .TAKEDOWN (by decide)⟩

/-! ## Claim theorems: audit-log ordering -/

theorem sorted_strict_of_nodup {out : List AuditLog}
    (hnd : (out.map AuditLog.created_at).Nodup)
    (hs : List.Sorted byRecency out) : List.Sorted byRecencyStrict out := by
  have hp : out.Pairwise (fun a b => a.created_at ≠ b.created_at) :=
    List.pairwise_map.mp hnd
  exact (hs.and hp).imp
    (fun hab => Nat.lt_of_le_of_ne hab.1 (fun hq => hab.2 hq.symm))

/-- C8 counterexample: with two stored records sharing `created_at = 1`,
the sequence listing them in reverse of their insertion order is a possible
result of `order_by("-created_at")` (it is a sorted permutation of the
store), yet its records with timestamp 1 are not in insertion order — so
ties are not broken by insertion order. -/
theorem audit_log_view_tie_not_insertion_order :
    audit_log_view
      [⟨1, "u", .LOGIN, "first"⟩, ⟨1, "u", .LOGOUT, "second"⟩]
      [⟨1, "u", .LOGOUT, "second"⟩, ⟨1, "u", .LOGIN, "first"⟩]
    ∧ List.filter (fun a => a.created_at == 1)
        ([⟨1, "u", .LOGOUT, "second"⟩, ⟨1, "u", .LOGIN, "first"⟩] : List AuditLog)
      ≠ List.filter (fun a => a.created_at == 1)
        ([⟨1, "u", .LOGIN, "first"⟩, ⟨1, "u", .LOGOUT, "second"⟩] : List AuditLog) := by
  decide

/-- C8 (amended): every possible displayed sequence is a permutation of the
stored audit records that is ordered newest-first (non-increasing
`created_at`); such a sequence always exists; and when the stored creation
timestamps are pairwise distinct the displayed sequence is strictly
descending and uniquely determined.  The relative order of records with
equal timestamps is not determined by the program. -/
theorem audit_log_view_ordering (logs out : List AuditLog)
    (h : audit_log_view logs out) :
    List.Sorted byRecency out
    ∧ out.Perm logs
    ∧ audit_log_view logs (logs.insertionSort byRecency)
    ∧ ((logs.map AuditLog.created_at).Nodup →
        List.Sorted byRecencyStrict out
        ∧ ∀ out', audit_log_view logs out' → out' = out) := by
  obtain ⟨hperm, hsort⟩ := h
  refine ⟨hsort, hperm,
    ⟨List.perm_insertionSort byRecency logs,
     List.sorted_insertionSort byRecency logs⟩, ?_⟩
  intro hnd
  have hndout : (out.map AuditLog.created_at).Nodup :=
    ((hperm.map AuditLog.created_at).nodup_iff).mpr hnd
  refine ⟨sorted_strict_of_nodup hndout hsort, ?_⟩
  intro out' h'
  obtain ⟨hperm', hsort'⟩ := h'
  have hndout' : (out'.map AuditLog.created_at).Nodup :=
    ((hperm'.map AuditLog.created_at).nodup_iff).mpr hnd
  exact List.eq_of_perm_of_sorted (hperm'.trans hperm.symm)
    (sorted_strict_of_nodup hndout' hsort') (sorted_strict_of_nodup hndout hsort)

/-- C8 witness: a two-record store with distinct timestamps 1 and 2; the
newest-first sequence is a valid display, it is sorted (strictly), a
permutation of the store, and — by uniqueness — it is the one the sorting
query yields. -/
theorem audit_log_view_ordering_witness :
    audit_log_view [⟨1, "u", .LOGIN, "a"⟩, ⟨2, "u", .LOGOUT, "b"⟩]
      [⟨2, "u", .LOGOUT, "b"⟩, ⟨1, "u", .LOGIN, "a"⟩]
    ∧ List.Sorted byRecency [⟨2, "u", .LOGOUT, "b"⟩, ⟨1, "u", .LOGIN, "a"⟩]
    ∧ List.Perm ([⟨2, "u", .LOGOUT, "b"⟩, ⟨1, "u", .LOGIN, "a"⟩] : List AuditLog)
        [⟨1, "u", .LOGIN, "a"⟩, ⟨2, "u", .LOGOUT, "b"⟩]
    ∧ List.Sorted byRecencyStrict [⟨2, "u", .LOGOUT, "b"⟩, ⟨1, "u", .LOGIN, "a"⟩]
    ∧ List.insertionSort byRecency [⟨1, "u", .LOGIN, "a"⟩, ⟨2, "u", .LOGOUT, "b"⟩]
        = [⟨2, "u", .LOGOUT, "b"⟩, ⟨1, "u", .LOGIN, "a"⟩] := by
  have happ := audit_log_view_ordering
    [⟨1, "u", .LOGIN, "a"⟩, ⟨2, "u", .LOGOUT, "b"⟩]
    [⟨2, "u", .LOGOUT, "b"⟩, ⟨1, "u", .LOGIN, "a"⟩] (by decide)
  exact ⟨by decide, happ.1, happ.2.1, (happ.2.2.2 (by decide)).1,
    (happ.2.2.2 (by decide)).2
      (List.insertionSort byRecency [⟨1, "u", .LOGIN, "a"⟩, ⟨2, "u", .LOGOUT, "b"⟩])
      happ.2.2.1⟩

end Orion
